import Mathlib

/-!
Shallow embedding of the MultiversX staking contract
(`src/staking/src/staking.rs`, with the near-duplicate older variant in
`src/staking/staking.rs`), together with proofs of the specified properties.

Modelling conventions:
* `BigUint` values are `Nat`; `BigUint` subtraction aborts when the result
  would be negative, modelled by the fallible `bigSub`.
* Addresses are `Nat`.  The `stakes` storage map is an association list with
  one entry per address whose entry has ever been written; an address absent
  from the list models an empty storage entry.
* An endpoint is a function from the block timestamp, the caller, the
  attached payment (where applicable) and the pre-state to
  `Except Err (State × List (Nat × Nat))`: on success the post-state plus the
  list of EGLD transfers performed (recipient, amount) in order; on failure
  the error the transaction aborts with.  The host executes endpoints
  atomically, so an aborted call leaves storage untouched (`runTx`).
* `SingleValueMapper::get` top-decodes the raw storage entry; decoding the
  empty entry of a never-seen address as the `Stake` struct fails
  (`Err.decodeError`) — the `is_empty` guard in `stake` exists precisely to
  avoid this, and the older variant lacking the guard differs exactly here.
-/

namespace StakingModel

/-- Reward paid out per second of elapsed time, `REWARD_PER_SECOND = 300` in
the source. -/
def REWARD_PER_SECOND : Nat := 300

/-- Per-account stake record, struct `Stake` in the source. -/
structure Stake where
  amount : Nat
  reward_debt : Nat
deriving DecidableEq

/-- Zeroed stake record, the `Default` impl in the source. -/
def Stake.default : Stake :=
  { amount := 0, reward_debt := 0 }

/-- Errors an endpoint can abort with.  The first three are the `require!`
messages of the source ("Must pay more than 0", "No staked amount",
"No rewards to claim"); `decodeError` is the storage decode failure raised
when an empty entry is top-decoded as a `Stake`; `subUnderflow` is the abort
raised by `BigUint` subtraction when the result would be negative. -/
inductive Err where
  | invalidAmount
  | noStake
  | nothingToClaim
  | decodeError
  | subUnderflow
deriving DecidableEq

/-- Contract storage: the `stakes` map plus the three singleton mappers
`totalStaked`, `accRewardPerShare` and `lastRewardTime`. -/
structure State where
  stakes : List (Nat × Stake)
  total_staked : Nat
  acc_reward_per_share : Nat
  last_reward_time : Nat
deriving DecidableEq

deriving instance DecidableEq for Except

/-- Raw read of the `stakes` entry of address `a`: `none` models an empty
storage entry. -/
def lookupStake : List (Nat × Stake) → Nat → Option Stake
  | [], _ => none
  | (b, s) :: rest, a => if b = a then some s else lookupStake rest a

/-- Write of the `stakes` entry of address `a` (`SingleValueMapper::set`). -/
def setStake : List (Nat × Stake) → Nat → Stake → List (Nat × Stake)
  | [], a, s => [(a, s)]
  | (b, t) :: rest, a, s =>
      if b = a then (b, s) :: rest else (b, t) :: setStake rest a s

/-- Reads a stake record the way `stake` does in the source: the
`is_empty` guard substitutes `Stake::default()` for an empty entry. -/
def getOrDefault (l : List (Nat × Stake)) (a : Nat) : Stake :=
  match lookupStake l a with
  | none => Stake.default
  | some s => s

/-- Reads a stake record the way `claim_rewards`, `unstake` and the older
`stake` variant do: a plain `SingleValueMapper::get`, which fails with a
storage decode error on the empty entry of a never-seen address. -/
def getStakeStrict (l : List (Nat × Stake)) (a : Nat) : Except Err Stake :=
  match lookupStake l a with
  | none => Except.error Err.decodeError
  | some s => Except.ok s

/-- Unsigned big-integer subtraction: aborts when the result would be
negative, as `BigUint` subtraction does on chain. -/
def bigSub (a b : Nat) : Except Err Nat :=
  if b ≤ a then Except.ok (a - b) else Except.error Err.subUnderflow

/-- Function `update_pool` of the source, with the block timestamp passed in
explicitly as `now`. -/
def update_pool (now : Nat) (st : State) : State :=
  if now ≤ st.last_reward_time then st
  else if st.total_staked = 0 then { st with last_reward_time := now }
  else
    let elapsed_time := now - st.last_reward_time
    let reward := elapsed_time * REWARD_PER_SECOND
    { st with
        acc_reward_per_share :=
          st.acc_reward_per_share + reward / st.total_staked,
        last_reward_time := now }

/-- Function `send_rewards` of the source, as the list of transfers it
performs: nothing when the amount is zero, one EGLD transfer otherwise. -/
def send_rewards (dest : Nat) (amount : Nat) : List (Nat × Nat) :=
  if 0 < amount then [(dest, amount)] else []

/-- Endpoint `stake` of `src/staking/src/staking.rs` (the canonical variant,
with the `is_empty` guard).  `payment_amount` is the attached EGLD value. -/
def stake (now caller payment_amount : Nat) (st : State) :
    Except Err (State × List (Nat × Nat)) :=
  if payment_amount = 0 then Except.error Err.invalidAmount else
  let st1 := update_pool now st
  let s := getOrDefault st1.stakes caller
  let settled : Except Err (List (Nat × Nat)) :=
    if 0 < s.amount then
      match bigSub (s.amount * st1.acc_reward_per_share) s.reward_debt with
      | Except.error e => Except.error e
      | Except.ok pending => Except.ok (send_rewards caller pending)
    else Except.ok []
  match settled with
  | Except.error e => Except.error e
  | Except.ok transfers =>
      let s2 : Stake :=
        { amount := s.amount + payment_amount,
          reward_debt := (s.amount + payment_amount) * st1.acc_reward_per_share }
      Except.ok
        ({ st1 with
            stakes := setStake st1.stakes caller s2,
            total_staked := st1.total_staked + payment_amount },
          transfers)

/-- Endpoint `stake` of the older variant `src/staking/staking.rs`, which
reads the caller's record with a plain `get()` and no `is_empty` guard. -/
def stakeVariant (now caller payment_amount : Nat) (st : State) :
    Except Err (State × List (Nat × Nat)) :=
  if payment_amount = 0 then Except.error Err.invalidAmount else
  let st1 := update_pool now st
  match getStakeStrict st1.stakes caller with
  | Except.error e => Except.error e
  | Except.ok s =>
    let settled : Except Err (List (Nat × Nat)) :=
      if 0 < s.amount then
        match bigSub (s.amount * st1.acc_reward_per_share) s.reward_debt with
        | Except.error e => Except.error e
        | Except.ok pending => Except.ok (send_rewards caller pending)
      else Except.ok []
    match settled with
    | Except.error e => Except.error e
    | Except.ok transfers =>
        let s2 : Stake :=
          { amount := s.amount + payment_amount,
            reward_debt := (s.amount + payment_amount) * st1.acc_reward_per_share }
        Except.ok
          ({ st1 with
              stakes := setStake st1.stakes caller s2,
              total_staked := st1.total_staked + payment_amount },
            transfers)

/-- Endpoint `claim_rewards` of the source. -/
def claim_rewards (now caller : Nat) (st : State) :
    Except Err (State × List (Nat × Nat)) :=
  let st1 := update_pool now st
  match getStakeStrict st1.stakes caller with
  | Except.error e => Except.error e
  | Except.ok s =>
    if s.amount = 0 then Except.error Err.noStake else
    match bigSub (s.amount * st1.acc_reward_per_share) s.reward_debt with
    | Except.error e => Except.error e
    | Except.ok pending =>
      if pending = 0 then Except.error Err.nothingToClaim else
      Except.ok
        ({ st1 with
            stakes := setStake st1.stakes caller
              { amount := s.amount,
                reward_debt := s.amount * st1.acc_reward_per_share } },
          send_rewards caller pending)

/-- Endpoint `unstake` of the source. -/
def unstake (now caller : Nat) (st : State) :
    Except Err (State × List (Nat × Nat)) :=
  let st1 := update_pool now st
  match getStakeStrict st1.stakes caller with
  | Except.error e => Except.error e
  | Except.ok s =>
    if s.amount = 0 then Except.error Err.noStake else
    match bigSub (s.amount * st1.acc_reward_per_share) s.reward_debt with
    | Except.error e => Except.error e
    | Except.ok pending =>
      let transfers := if 0 < pending then send_rewards caller pending else []
      let st2 :=
        { st1 with
            stakes := setStake st1.stakes caller
              { amount := 0, reward_debt := 0 } }
      match bigSub st2.total_staked s.amount with
      | Except.error e => Except.error e
      | Except.ok newTotal =>
          Except.ok
            ({ st2 with total_staked := newTotal },
              transfers ++ [(caller, s.amount)])

/-- Modelled from the spec: the body of the generated `getStakingPosition`
view endpoint for the `stakes` mapper is produced by the framework macro and
is not in the source tree.  Per the spec (§6 table: read-only, never fails,
returns the account's `(amount, reward_debt)`; §9: absent keys default to
the `Empty` state), a missing record is read as the zeroed default. -/
def getStakingPosition (st : State) (account : Nat) : Stake :=
  getOrDefault st.stakes account

/-- State produced by `init`: `lastRewardTime` is set to the deployment
timestamp, everything else is empty storage (decoded as zero). -/
def initState (t0 : Nat) : State :=
  { stakes := [], total_staked := 0, acc_reward_per_share := 0,
    last_reward_time := t0 }

/-- Transactional wrapper: the host executes each endpoint call atomically
(spec §5), so a failed call leaves storage exactly as it was and performs no
transfers. -/
def runTx (st : State) (r : Except Err (State × List (Nat × Nat))) :
    State × List (Nat × Nat) :=
  match r with
  | Except.ok x => x
  | Except.error _ => (st, [])

/-- Sum of the `amount` fields over all stored records. -/
def sumStakes : List (Nat × Stake) → Nat
  | [] => 0
  | (_, s) :: rest => s.amount + sumStakes rest

/-- Sum of the `amount` fields over the stored records with `amount > 0`. -/
def sumPosStakes : List (Nat × Stake) → Nat
  | [] => 0
  | (_, s) :: rest => (if 0 < s.amount then s.amount else 0) + sumPosStakes rest

/-- Multi-step execution: `Steps t st t2 st2` means state `st2` at time `t2`
is reached from state `st` at time `t` by a finite sequence of successful
endpoint calls (stake / claim_rewards / unstake) and pool syncs at
non-decreasing block timestamps. -/
inductive Steps : Nat → State → Nat → State → Prop where
  | refl (t : Nat) (st : State) : Steps t st t st
  | sync_step {t st t2 st2 t3} :
      Steps t st t2 st2 → t2 ≤ t3 → Steps t st t3 (update_pool t3 st2)
  | stake_step {t st t2 st2 t3 c p st3 tr} :
      Steps t st t2 st2 → t2 ≤ t3 →
      stake t3 c p st2 = Except.ok (st3, tr) → Steps t st t3 st3
  | claim_step {t st t2 st2 t3 c st3 tr} :
      Steps t st t2 st2 → t2 ≤ t3 →
      claim_rewards t3 c st2 = Except.ok (st3, tr) → Steps t st t3 st3
  | unstake_step {t st t2 st2 t3 c st3 tr} :
      Steps t st t2 st2 → t2 ≤ t3 →
      unstake t3 c st2 = Except.ok (st3, tr) → Steps t st t3 st3

/-- States reachable from the post-init state of some deployment time by
successful operations at non-decreasing timestamps. -/
def Reachable (t : Nat) (st : State) : Prop :=
  ∃ t0, Steps t0 (initState t0) t st

/-- The inductive invariant: `totalStaked` is the sum of all stored amounts,
and every stored record's `reward_debt` is at most `amount` times the
current accumulator. -/
def Inv (st : State) : Prop :=
  st.total_staked = sumStakes st.stakes ∧
  ∀ a s, lookupStake st.stakes a = some s →
    s.reward_debt ≤ s.amount * st.acc_reward_per_share

/-! ### Basic lemmas about the pool sync and the storage map -/

theorem update_pool_stakes (now : Nat) (st : State) :
    (update_pool now st).stakes = st.stakes := by
  unfold update_pool
  split
  · rfl
  · split <;> rfl

theorem update_pool_total (now : Nat) (st : State) :
    (update_pool now st).total_staked = st.total_staked := by
  unfold update_pool
  split
  · rfl
  · split <;> rfl

theorem update_pool_acc_le (now : Nat) (st : State) :
    st.acc_reward_per_share ≤ (update_pool now st).acc_reward_per_share := by
  unfold update_pool
  split
  · exact Nat.le_refl _
  · split
    · exact Nat.le_refl _
    · exact Nat.le_add_right _ _

theorem lookupStake_setStake (l : List (Nat × Stake)) (a b : Nat) (s : Stake) :
    lookupStake (setStake l a s) b =
      if a = b then some s else lookupStake l b := by
  induction l with
  | nil =>
      simp [setStake, lookupStake]
  | cons hd tl ih =>
      obtain ⟨k, t⟩ := hd
      by_cases hk : k = a
      · subst hk
        by_cases hb : k = b <;> simp [setStake, lookupStake, hb]
      · by_cases hb : k = b
        · subst hb
          have hab : ¬ a = k := fun h => hk h.symm
          simp [setStake, lookupStake, hk, hab]
        · simp [setStake, lookupStake, hk, hb, ih]

theorem sumStakes_setStake (l : List (Nat × Stake)) (a : Nat) (s2 : Stake) :
    sumStakes (setStake l a s2) + ((lookupStake l a).getD Stake.default).amount
      = sumStakes l + s2.amount := by
  induction l with
  | nil =>
      simp [setStake, sumStakes, lookupStake, Stake.default]
  | cons hd tl ih =>
      obtain ⟨k, t⟩ := hd
      by_cases hk : k = a
      · subst hk
        simp [setStake, lookupStake, sumStakes]
        omega
      · simp [setStake, lookupStake, sumStakes, hk]
        omega

theorem lookupStake_le_sumStakes (l : List (Nat × Stake)) (a : Nat) (s : Stake)
    (h : lookupStake l a = some s) : s.amount ≤ sumStakes l := by
  induction l with
  | nil => simp [lookupStake] at h
  | cons hd tl ih =>
      obtain ⟨k, t⟩ := hd
      simp [lookupStake] at h
      by_cases hk : k = a
      · simp [hk] at h
        subst h
        simp [sumStakes]
      · simp [hk] at h
        have := ih h
        simp [sumStakes]
        omega

theorem sumStakes_eq_sumPosStakes (l : List (Nat × Stake)) :
    sumStakes l = sumPosStakes l := by
  induction l with
  | nil => rfl
  | cons hd tl ih =>
      obtain ⟨k, t⟩ := hd
      simp [sumStakes, sumPosStakes, ih]
      by_cases ht : 0 < t.amount
      · simp [ht]
      · simp [ht]
        omega

/-! ### Branch-by-branch equations for the endpoints -/

theorem stake_eq_zero (now c : Nat) (st : State) :
    stake now c 0 st = Except.error Err.invalidAmount := by
  simp [stake]

theorem stake_eq_noSettle (now c p : Nat) (st : State) (hp : p ≠ 0)
    (hs : (getOrDefault st.stakes c).amount = 0) :
    stake now c p st =
      Except.ok
        ({ update_pool now st with
            stakes := setStake (update_pool now st).stakes c
              { amount := (getOrDefault st.stakes c).amount + p,
                reward_debt := ((getOrDefault st.stakes c).amount + p) *
                  (update_pool now st).acc_reward_per_share },
            total_staked := (update_pool now st).total_staked + p },
          []) := by
  simp [stake, hp, update_pool_stakes, hs]

theorem stake_eq_settle (now c p : Nat) (st : State) (hp : p ≠ 0)
    (hpos : 0 < (getOrDefault st.stakes c).amount)
    (hd : (getOrDefault st.stakes c).reward_debt ≤
      (getOrDefault st.stakes c).amount *
        (update_pool now st).acc_reward_per_share) :
    stake now c p st =
      Except.ok
        ({ update_pool now st with
            stakes := setStake (update_pool now st).stakes c
              { amount := (getOrDefault st.stakes c).amount + p,
                reward_debt := ((getOrDefault st.stakes c).amount + p) *
                  (update_pool now st).acc_reward_per_share },
            total_staked := (update_pool now st).total_staked + p },
          send_rewards c ((getOrDefault st.stakes c).amount *
            (update_pool now st).acc_reward_per_share -
            (getOrDefault st.stakes c).reward_debt)) := by
  simp [stake, hp, update_pool_stakes, hpos, bigSub, hd]

theorem stake_eq_underflow (now c p : Nat) (st : State) (hp : p ≠ 0)
    (hpos : 0 < (getOrDefault st.stakes c).amount)
    (hd : (getOrDefault st.stakes c).amount *
        (update_pool now st).acc_reward_per_share <
      (getOrDefault st.stakes c).reward_debt) :
    stake now c p st = Except.error Err.subUnderflow := by
  simp [stake, hp, update_pool_stakes, hpos, bigSub, Nat.not_le.mpr hd]

theorem stake_ok {now c p : Nat} {st st2 : State} {tr : List (Nat × Nat)}
    (h : stake now c p st = Except.ok (st2, tr)) :
    p ≠ 0 ∧
    st2 = { update_pool now st with
            stakes := setStake (update_pool now st).stakes c
              { amount := (getOrDefault st.stakes c).amount + p,
                reward_debt := ((getOrDefault st.stakes c).amount + p) *
                  (update_pool now st).acc_reward_per_share },
            total_staked := (update_pool now st).total_staked + p } ∧
    tr = send_rewards c ((getOrDefault st.stakes c).amount *
            (update_pool now st).acc_reward_per_share -
            (getOrDefault st.stakes c).reward_debt) ∧
    (0 < (getOrDefault st.stakes c).amount →
      (getOrDefault st.stakes c).reward_debt ≤
        (getOrDefault st.stakes c).amount *
          (update_pool now st).acc_reward_per_share) := by
  by_cases hp : p = 0
  · subst hp
    rw [stake_eq_zero] at h
    exact absurd h (by simp)
  · by_cases hs : (getOrDefault st.stakes c).amount = 0
    · rw [stake_eq_noSettle now c p st hp hs] at h
      obtain ⟨h1, h2⟩ := Prod.mk.injEq .. ▸ (Except.ok.injEq .. ▸ h)
      refine ⟨hp, h1.symm, ?_, ?_⟩
      · rw [← h2]
        simp [send_rewards, hs]
      · intro hpos
        omega
    · have hpos : 0 < (getOrDefault st.stakes c).amount := Nat.pos_of_ne_zero hs
      by_cases hd : (getOrDefault st.stakes c).reward_debt ≤
          (getOrDefault st.stakes c).amount *
            (update_pool now st).acc_reward_per_share
      · rw [stake_eq_settle now c p st hp hpos hd] at h
        obtain ⟨h1, h2⟩ := Prod.mk.injEq .. ▸ (Except.ok.injEq .. ▸ h)
        exact ⟨hp, h1.symm, h2.symm, fun _ => hd⟩
      · rw [stake_eq_underflow now c p st hp hpos (Nat.not_le.mp hd)] at h
        exact absurd h (by simp)

theorem claim_eq_none (now c : Nat) (st : State)
    (h : lookupStake st.stakes c = none) :
    claim_rewards now c st = Except.error Err.decodeError := by
  simp [claim_rewards, getStakeStrict, update_pool_stakes, h]

theorem claim_eq_noStakeBranch (now c : Nat) (st : State) (s : Stake)
    (h : lookupStake st.stakes c = some s) (hs : s.amount = 0) :
    claim_rewards now c st = Except.error Err.noStake := by
  simp [claim_rewards, getStakeStrict, update_pool_stakes, h, hs]

theorem claim_eq_underflow (now c : Nat) (st : State) (s : Stake)
    (h : lookupStake st.stakes c = some s) (hpos : 0 < s.amount)
    (hd : s.amount * (update_pool now st).acc_reward_per_share < s.reward_debt) :
    claim_rewards now c st = Except.error Err.subUnderflow := by
  simp [claim_rewards, getStakeStrict, update_pool_stakes, h,
    Nat.pos_iff_ne_zero.mp hpos, bigSub, Nat.not_le.mpr hd]

theorem claim_eq_nothing (now c : Nat) (st : State) (s : Stake)
    (h : lookupStake st.stakes c = some s) (hpos : 0 < s.amount)
    (hd : s.reward_debt ≤ s.amount * (update_pool now st).acc_reward_per_share)
    (hz : s.amount * (update_pool now st).acc_reward_per_share
      - s.reward_debt = 0) :
    claim_rewards now c st = Except.error Err.nothingToClaim := by
  simp [claim_rewards, getStakeStrict, update_pool_stakes, h,
    Nat.pos_iff_ne_zero.mp hpos, bigSub, hd, hz]

theorem claim_eq_ok (now c : Nat) (st : State) (s : Stake)
    (h : lookupStake st.stakes c = some s) (hpos : 0 < s.amount)
    (hd : s.reward_debt ≤ s.amount * (update_pool now st).acc_reward_per_share)
    (hnz : s.amount * (update_pool now st).acc_reward_per_share
      - s.reward_debt ≠ 0) :
    claim_rewards now c st =
      Except.ok
        ({ update_pool now st with
            stakes := setStake (update_pool now st).stakes c
              { amount := s.amount,
                reward_debt :=
                  s.amount * (update_pool now st).acc_reward_per_share } },
          send_rewards c (s.amount *
            (update_pool now st).acc_reward_per_share - s.reward_debt)) := by
  simp [claim_rewards, getStakeStrict, update_pool_stakes, h,
    Nat.pos_iff_ne_zero.mp hpos, bigSub, hd, hnz]

theorem claim_ok {now c : Nat} {st st2 : State} {tr : List (Nat × Nat)}
    (h : claim_rewards now c st = Except.ok (st2, tr)) :
    ∃ s, lookupStake st.stakes c = some s ∧ 0 < s.amount ∧
      s.reward_debt ≤ s.amount * (update_pool now st).acc_reward_per_share ∧
      s.amount * (update_pool now st).acc_reward_per_share
        - s.reward_debt ≠ 0 ∧
      st2 = { update_pool now st with
              stakes := setStake (update_pool now st).stakes c
                { amount := s.amount,
                  reward_debt :=
                    s.amount * (update_pool now st).acc_reward_per_share } } ∧
      tr = send_rewards c (s.amount *
        (update_pool now st).acc_reward_per_share - s.reward_debt) := by
  cases hlk : lookupStake st.stakes c with
  | none =>
      rw [claim_eq_none now c st hlk] at h
      exact absurd h (by simp)
  | some s =>
      by_cases hs : s.amount = 0
      · rw [claim_eq_noStakeBranch now c st s hlk hs] at h
        exact absurd h (by simp)
      · have hpos : 0 < s.amount := Nat.pos_of_ne_zero hs
        by_cases hd : s.reward_debt ≤
            s.amount * (update_pool now st).acc_reward_per_share
        · by_cases hz : s.amount *
              (update_pool now st).acc_reward_per_share - s.reward_debt = 0
          · rw [claim_eq_nothing now c st s hlk hpos hd hz] at h
            exact absurd h (by simp)
          · rw [claim_eq_ok now c st s hlk hpos hd hz] at h
            obtain ⟨h1, h2⟩ := Prod.mk.injEq .. ▸ (Except.ok.injEq .. ▸ h)
            exact ⟨s, rfl, hpos, hd, hz, h1.symm, h2.symm⟩
        · rw [claim_eq_underflow now c st s hlk hpos (Nat.not_le.mp hd)] at h
          exact absurd h (by simp)

theorem unstake_eq_none (now c : Nat) (st : State)
    (h : lookupStake st.stakes c = none) :
    unstake now c st = Except.error Err.decodeError := by
  simp [unstake, getStakeStrict, update_pool_stakes, h]

theorem unstake_eq_noStakeBranch (now c : Nat) (st : State) (s : Stake)
    (h : lookupStake st.stakes c = some s) (hs : s.amount = 0) :
    unstake now c st = Except.error Err.noStake := by
  simp [unstake, getStakeStrict, update_pool_stakes, h, hs]

theorem unstake_eq_underflow (now c : Nat) (st : State) (s : Stake)
    (h : lookupStake st.stakes c = some s) (hpos : 0 < s.amount)
    (hd : s.amount * (update_pool now st).acc_reward_per_share < s.reward_debt) :
    unstake now c st = Except.error Err.subUnderflow := by
  simp [unstake, getStakeStrict, update_pool_stakes, h,
    Nat.pos_iff_ne_zero.mp hpos, bigSub, Nat.not_le.mpr hd]

theorem unstake_eq_totalUnderflow (now c : Nat) (st : State) (s : Stake)
    (h : lookupStake st.stakes c = some s) (hpos : 0 < s.amount)
    (hd : s.reward_debt ≤ s.amount * (update_pool now st).acc_reward_per_share)
    (ht : (update_pool now st).total_staked < s.amount) :
    unstake now c st = Except.error Err.subUnderflow := by
  simp [unstake, getStakeStrict, update_pool_stakes, h,
    Nat.pos_iff_ne_zero.mp hpos, bigSub, hd, Nat.not_le.mpr ht]

theorem unstake_eq_ok (now c : Nat) (st : State) (s : Stake)
    (h : lookupStake st.stakes c = some s) (hpos : 0 < s.amount)
    (hd : s.reward_debt ≤ s.amount * (update_pool now st).acc_reward_per_share)
    (ht : s.amount ≤ (update_pool now st).total_staked) :
    unstake now c st =
      Except.ok
        ({ update_pool now st with
            stakes := setStake (update_pool now st).stakes c
              { amount := 0, reward_debt := 0 },
            total_staked := (update_pool now st).total_staked - s.amount },
          send_rewards c (s.amount *
            (update_pool now st).acc_reward_per_share - s.reward_debt)
            ++ [(c, s.amount)]) := by
  by_cases hz : s.amount * (update_pool now st).acc_reward_per_share
      - s.reward_debt = 0
  · simp [unstake, getStakeStrict, update_pool_stakes, h,
      Nat.pos_iff_ne_zero.mp hpos, bigSub, hd, ht, hz, send_rewards]
  · simp [unstake, getStakeStrict, update_pool_stakes, h,
      Nat.pos_iff_ne_zero.mp hpos, bigSub, hd, ht, hz,
      Nat.pos_of_ne_zero hz, send_rewards]

theorem unstake_ok {now c : Nat} {st st2 : State} {tr : List (Nat × Nat)}
    (h : unstake now c st = Except.ok (st2, tr)) :
    ∃ s, lookupStake st.stakes c = some s ∧ 0 < s.amount ∧
      s.reward_debt ≤ s.amount * (update_pool now st).acc_reward_per_share ∧
      s.amount ≤ (update_pool now st).total_staked ∧
      st2 = { update_pool now st with
              stakes := setStake (update_pool now st).stakes c
                { amount := 0, reward_debt := 0 },
              total_staked := (update_pool now st).total_staked - s.amount } ∧
      tr = send_rewards c (s.amount *
        (update_pool now st).acc_reward_per_share - s.reward_debt)
        ++ [(c, s.amount)] := by
  cases hlk : lookupStake st.stakes c with
  | none =>
      rw [unstake_eq_none now c st hlk] at h
      exact absurd h (by simp)
  | some s =>
      by_cases hs : s.amount = 0
      · rw [unstake_eq_noStakeBranch now c st s hlk hs] at h
        exact absurd h (by simp)
      · have hpos : 0 < s.amount := Nat.pos_of_ne_zero hs
        by_cases hd : s.reward_debt ≤
            s.amount * (update_pool now st).acc_reward_per_share
        · by_cases ht : s.amount ≤ (update_pool now st).total_staked
          · rw [unstake_eq_ok now c st s hlk hpos hd ht] at h
            obtain ⟨h1, h2⟩ := Prod.mk.injEq .. ▸ (Except.ok.injEq .. ▸ h)
            exact ⟨s, rfl, hpos, hd, ht, h1.symm, h2.symm⟩
          · rw [unstake_eq_totalUnderflow now c st s hlk hpos hd
              (Nat.not_le.mp ht)] at h
            exact absurd h (by simp)
        · rw [unstake_eq_underflow now c st s hlk hpos (Nat.not_le.mp hd)] at h
          exact absurd h (by simp)

/-! ### The inductive invariant and its preservation -/

theorem getOrDefault_eq_getD (l : List (Nat × Stake)) (a : Nat) :
    getOrDefault l a = (lookupStake l a).getD Stake.default := by
  unfold getOrDefault
  cases lookupStake l a <;> rfl

theorem getOrDefault_pos_lookup (l : List (Nat × Stake)) (a : Nat)
    (h : (getOrDefault l a).amount ≠ 0) :
    lookupStake l a = some (getOrDefault l a) := by
  unfold getOrDefault at *
  cases hl : lookupStake l a with
  | none => rw [hl] at h; exact absurd rfl h
  | some s => rfl

theorem inv_init (t0 : Nat) : Inv (initState t0) := by
  constructor
  · rfl
  · intro a s h
    simp [initState, lookupStake] at h

theorem inv_update_pool (now : Nat) (st : State) (h : Inv st) :
    Inv (update_pool now st) := by
  obtain ⟨h1, h2⟩ := h
  constructor
  · rw [update_pool_total, update_pool_stakes]
    exact h1
  · intro a s hl
    rw [update_pool_stakes] at hl
    exact le_trans (h2 a s hl)
      (Nat.mul_le_mul_left _ (update_pool_acc_le now st))

theorem inv_stake {now c p : Nat} {st st2 : State} {tr : List (Nat × Nat)}
    (hInv : Inv st) (h : stake now c p st = Except.ok (st2, tr)) :
    Inv st2 := by
  obtain ⟨hp, hst2, htr, hsettle⟩ := stake_ok h
  obtain ⟨h1, h2⟩ := inv_update_pool now st hInv
  subst hst2
  constructor
  · have hsum := sumStakes_setStake (update_pool now st).stakes c
      { amount := (getOrDefault st.stakes c).amount + p,
        reward_debt := ((getOrDefault st.stakes c).amount + p) *
          (update_pool now st).acc_reward_per_share }
    have hg : ((lookupStake (update_pool now st).stakes c).getD
        Stake.default).amount = (getOrDefault st.stakes c).amount := by
      rw [update_pool_stakes, ← getOrDefault_eq_getD]
    simp only [hg] at hsum
    simp only [State.total_staked, State.stakes] at *
    omega
  · intro a s hl
    simp only [State.stakes] at hl
    rw [lookupStake_setStake] at hl
    by_cases hca : c = a
    · simp [hca] at hl
      subst hl
      simp
    · simp [hca] at hl
      exact h2 a s hl

theorem inv_claim {now c : Nat} {st st2 : State} {tr : List (Nat × Nat)}
    (hInv : Inv st) (h : claim_rewards now c st = Except.ok (st2, tr)) :
    Inv st2 := by
  obtain ⟨s, hlk, hpos, hd, hnz, hst2, htr⟩ := claim_ok h
  obtain ⟨h1, h2⟩ := inv_update_pool now st hInv
  subst hst2
  constructor
  · have hsum := sumStakes_setStake (update_pool now st).stakes c
      { amount := s.amount,
        reward_debt := s.amount * (update_pool now st).acc_reward_per_share }
    have hg : (lookupStake (update_pool now st).stakes c).getD Stake.default
        = s := by
      rw [update_pool_stakes, hlk]
      rfl
    rw [hg] at hsum
    simp only [State.total_staked, State.stakes] at *
    omega
  · intro a s3 hl
    simp only [State.stakes] at hl
    rw [lookupStake_setStake] at hl
    by_cases hca : c = a
    · simp [hca] at hl
      subst hl
      simp
    · simp [hca] at hl
      exact h2 a s3 hl

theorem inv_unstake {now c : Nat} {st st2 : State} {tr : List (Nat × Nat)}
    (hInv : Inv st) (h : unstake now c st = Except.ok (st2, tr)) :
    Inv st2 := by
  obtain ⟨s, hlk, hpos, hd, hle, hst2, htr⟩ := unstake_ok h
  obtain ⟨h1, h2⟩ := inv_update_pool now st hInv
  subst hst2
  constructor
  · have hsum := sumStakes_setStake (update_pool now st).stakes c
      { amount := 0, reward_debt := 0 }
    have hg : (lookupStake (update_pool now st).stakes c).getD Stake.default
        = s := by
      rw [update_pool_stakes, hlk]
      rfl
    rw [hg] at hsum
    simp only [State.total_staked, State.stakes] at *
    omega
  · intro a s3 hl
    simp only [State.stakes] at hl
    rw [lookupStake_setStake] at hl
    by_cases hca : c = a
    · simp [hca] at hl
      subst hl
      simp
    · simp [hca] at hl
      exact h2 a s3 hl

theorem steps_inv {t : Nat} {st : State} {t2 : Nat} {st2 : State}
    (h : Steps t st t2 st2) (hInv : Inv st) : Inv st2 := by
  induction h with
  | refl => exact hInv
  | sync_step _ _ ih => exact inv_update_pool _ _ ih
  | stake_step _ _ hok ih => exact inv_stake ih hok
  | claim_step _ _ hok ih => exact inv_claim ih hok
  | unstake_step _ _ hok ih => exact inv_unstake ih hok

theorem reachable_inv {t : Nat} {st : State} (h : Reachable t st) : Inv st := by
  obtain ⟨t0, hsteps⟩ := h
  exact steps_inv hsteps (inv_init t0)

/-! ### The accumulator never decreases -/

theorem stake_acc_le {now c p : Nat} {st st2 : State} {tr : List (Nat × Nat)}
    (h : stake now c p st = Except.ok (st2, tr)) :
    st.acc_reward_per_share ≤ st2.acc_reward_per_share := by
  obtain ⟨_, hst2, _, _⟩ := stake_ok h
  subst hst2
  exact update_pool_acc_le now st

theorem claim_acc_le {now c : Nat} {st st2 : State} {tr : List (Nat × Nat)}
    (h : claim_rewards now c st = Except.ok (st2, tr)) :
    st.acc_reward_per_share ≤ st2.acc_reward_per_share := by
  obtain ⟨s, _, _, _, _, hst2, _⟩ := claim_ok h
  subst hst2
  exact update_pool_acc_le now st

theorem unstake_acc_le {now c : Nat} {st st2 : State} {tr : List (Nat × Nat)}
    (h : unstake now c st = Except.ok (st2, tr)) :
    st.acc_reward_per_share ≤ st2.acc_reward_per_share := by
  obtain ⟨s, _, _, _, _, hst2, _⟩ := unstake_ok h
  subst hst2
  exact update_pool_acc_le now st

theorem steps_acc_le {t : Nat} {st : State} {t2 : Nat} {st2 : State}
    (h : Steps t st t2 st2) :
    st.acc_reward_per_share ≤ st2.acc_reward_per_share := by
  induction h with
  | refl => exact Nat.le_refl _
  | sync_step _ _ ih => exact le_trans ih (update_pool_acc_le _ _)
  | stake_step _ _ hok ih => exact le_trans ih (stake_acc_le hok)
  | claim_step _ _ hok ih => exact le_trans ih (claim_acc_le hok)
  | unstake_step _ _ hok ih => exact le_trans ih (unstake_acc_le hok)

/-! ### Underflow freedom under the invariant -/

theorem stake_ne_underflow {now c p : Nat} {st : State} (hInv : Inv st) :
    stake now c p st ≠ Except.error Err.subUnderflow := by
  by_cases hp : p = 0
  · subst hp
    rw [stake_eq_zero]
    simp
  · by_cases hs : (getOrDefault st.stakes c).amount = 0
    · rw [stake_eq_noSettle now c p st hp hs]
      simp
    · have hlk := getOrDefault_pos_lookup st.stakes c hs
      have hd : (getOrDefault st.stakes c).reward_debt ≤
          (getOrDefault st.stakes c).amount *
            (update_pool now st).acc_reward_per_share :=
        le_trans (hInv.2 c _ hlk)
          (Nat.mul_le_mul_left _ (update_pool_acc_le now st))
      rw [stake_eq_settle now c p st hp (Nat.pos_of_ne_zero hs) hd]
      simp

theorem claim_ne_underflow {now c : Nat} {st : State} (hInv : Inv st) :
    claim_rewards now c st ≠ Except.error Err.subUnderflow := by
  cases hlk : lookupStake st.stakes c with
  | none =>
      rw [claim_eq_none now c st hlk]
      simp
  | some s =>
      by_cases hs : s.amount = 0
      · rw [claim_eq_noStakeBranch now c st s hlk hs]
        simp
      · have hd : s.reward_debt ≤
            s.amount * (update_pool now st).acc_reward_per_share :=
          le_trans (hInv.2 c s hlk)
            (Nat.mul_le_mul_left _ (update_pool_acc_le now st))
        by_cases hz : s.amount * (update_pool now st).acc_reward_per_share
            - s.reward_debt = 0
        · rw [claim_eq_nothing now c st s hlk (Nat.pos_of_ne_zero hs) hd hz]
          simp
        · rw [claim_eq_ok now c st s hlk (Nat.pos_of_ne_zero hs) hd hz]
          simp

theorem unstake_ne_underflow {now c : Nat} {st : State} (hInv : Inv st) :
    unstake now c st ≠ Except.error Err.subUnderflow := by
  cases hlk : lookupStake st.stakes c with
  | none =>
      rw [unstake_eq_none now c st hlk]
      simp
  | some s =>
      by_cases hs : s.amount = 0
      · rw [unstake_eq_noStakeBranch now c st s hlk hs]
        simp
      · have hd : s.reward_debt ≤
            s.amount * (update_pool now st).acc_reward_per_share :=
          le_trans (hInv.2 c s hlk)
            (Nat.mul_le_mul_left _ (update_pool_acc_le now st))
        have ht : s.amount ≤ (update_pool now st).total_staked := by
          rw [update_pool_total, hInv.1]
          exact lookupStake_le_sumStakes st.stakes c s hlk
        rw [unstake_eq_ok now c st s hlk (Nat.pos_of_ne_zero hs) hd ht]
        simp

/-! ### Further pool-sync lemmas -/

theorem update_pool_of_le {now : Nat} {st : State}
    (h : now ≤ st.last_reward_time) : update_pool now st = st := by
  simp [update_pool, h]

theorem update_pool_lrt {now : Nat} {st : State}
    (h : st.last_reward_time < now) :
    (update_pool now st).last_reward_time = now := by
  unfold update_pool
  rw [if_neg (Nat.not_le.mpr h)]
  split <;> rfl

theorem update_pool_idem (now : Nat) (st : State) :
    update_pool now (update_pool now st) = update_pool now st := by
  by_cases h : now ≤ st.last_reward_time
  · simp only [update_pool_of_le h]
  · exact update_pool_of_le
      (le_of_eq (update_pool_lrt (Nat.not_le.mp h)).symm)

/-! ### Claim C1 -/

/-- C1: the pool sync `update_pool` implements exactly the three-branch
function of the state: a no-op when `now ≤ last_reward_time`; only advancing
`last_reward_time` when `total_staked = 0`; otherwise adding
`(now − last_reward_time) * 300 / total_staked` (truncating division,
rate 300 per second) to `acc_reward_per_share` and advancing
`last_reward_time`.  A second call at the same timestamp changes nothing. -/
theorem C1_update_pool_spec (now : Nat) (st : State) :
    (now ≤ st.last_reward_time → update_pool now st = st) ∧
    (st.last_reward_time < now → st.total_staked = 0 →
      update_pool now st = { st with last_reward_time := now }) ∧
    (st.last_reward_time < now → st.total_staked ≠ 0 →
      update_pool now st =
        { st with
            acc_reward_per_share := st.acc_reward_per_share +
              (now - st.last_reward_time) * 300 / st.total_staked,
            last_reward_time := now }) ∧
    update_pool now (update_pool now st) = update_pool now st := by
  refine ⟨fun h => update_pool_of_le h, ?_, ?_, update_pool_idem now st⟩
  · intro h hz
    simp [update_pool, Nat.not_le.mpr h, hz]
  · intro h hz
    simp [update_pool, Nat.not_le.mpr h, hz, REWARD_PER_SECOND]

/-- Witness for C1: the three branches and idempotence evaluated at concrete
states. -/
theorem C1_update_pool_spec_witness :
    update_pool 3 (initState 5) = initState 5 ∧
    update_pool 7 (initState 5) = { initState 5 with last_reward_time := 7 } ∧
    update_pool 7
        { stakes := [(1, { amount := 10, reward_debt := 0 })],
          total_staked := 10, acc_reward_per_share := 0,
          last_reward_time := 5 } =
      { stakes := [(1, { amount := 10, reward_debt := 0 })],
        total_staked := 10, acc_reward_per_share := 60,
        last_reward_time := 7 } :=
  ⟨(C1_update_pool_spec 3 (initState 5)).1 (by decide),
   (C1_update_pool_spec 7 (initState 5)).2.1 (by decide) rfl,
   ((C1_update_pool_spec 7 _).2.2.1 (by decide) (by decide)).trans (by decide)⟩

/-! ### Claims C2, C7 and C8 -/

/-- Concrete reachable state used by the witnesses: deploy at `t = 0`,
account 1 stakes 1000 at `t = 0`, then claims at `t = 100` (spec
Scenario A). -/
theorem reachable_example :
    Reachable 100
      { stakes := [(1, { amount := 1000, reward_debt := 30000 })],
        total_staked := 1000, acc_reward_per_share := 30,
        last_reward_time := 100 } :=
  ⟨0, Steps.claim_step
    (Steps.stake_step (Steps.refl 0 (initState 0)) (by decide)
      (show stake 0 1 1000 (initState 0) =
          Except.ok
            ({ stakes := [(1, { amount := 1000, reward_debt := 0 })],
                total_staked := 1000, acc_reward_per_share := 0,
                last_reward_time := 0 }, [])
        from by decide))
    (by decide)
    (show claim_rewards 100 1
          { stakes := [(1, { amount := 1000, reward_debt := 0 })],
            total_staked := 1000, acc_reward_per_share := 0,
            last_reward_time := 0 } =
        Except.ok
          ({ stakes := [(1, { amount := 1000, reward_debt := 30000 })],
              total_staked := 1000, acc_reward_per_share := 30,
              last_reward_time := 100 }, [(1, 30000)])
      from by decide)⟩

/-- C2: in every state reachable from the post-init state by a finite
sequence of successful operations at non-decreasing timestamps,
`total_staked` equals the sum of the `amount` fields over all stored
records with `amount > 0`. -/
theorem C2_total_staked_sum {t : Nat} {st : State} (h : Reachable t st) :
    st.total_staked = sumPosStakes st.stakes := by
  rw [(reachable_inv h).1]
  exact sumStakes_eq_sumPosStakes st.stakes

/-- Witness for C2 at a concrete reachable state. -/
theorem C2_total_staked_sum_witness :
    ({ stakes := [(1, { amount := 1000, reward_debt := 30000 })],
        total_staked := 1000, acc_reward_per_share := 30,
        last_reward_time := 100 } : State).total_staked =
      sumPosStakes [(1, { amount := 1000, reward_debt := 30000 })] :=
  C2_total_staked_sum reachable_example

/-- C7: `acc_reward_per_share` never decreases: the pool sync and every
successful stake, claim or unstake executed at a timestamp at least
`last_reward_time` leaves it at least as large as before, and hence it is
non-decreasing along any sequence of operations at non-decreasing
timestamps. -/
theorem C7_acc_monotone (now : Nat) (st : State)
    (h : st.last_reward_time ≤ now) :
    st.acc_reward_per_share ≤ (update_pool now st).acc_reward_per_share ∧
    (∀ c p st2 tr, stake now c p st = Except.ok (st2, tr) →
      st.acc_reward_per_share ≤ st2.acc_reward_per_share) ∧
    (∀ c st2 tr, claim_rewards now c st = Except.ok (st2, tr) →
      st.acc_reward_per_share ≤ st2.acc_reward_per_share) ∧
    (∀ c st2 tr, unstake now c st = Except.ok (st2, tr) →
      st.acc_reward_per_share ≤ st2.acc_reward_per_share) ∧
    (∀ t1 st1 t2 st2, Steps t1 st1 t2 st2 →
      st1.acc_reward_per_share ≤ st2.acc_reward_per_share) :=
  ⟨update_pool_acc_le now st,
   fun _ _ _ _ hok => stake_acc_le hok,
   fun _ _ _ hok => claim_acc_le hok,
   fun _ _ _ hok => unstake_acc_le hok,
   fun _ _ _ _ hsteps => steps_acc_le hsteps⟩

/-- Witness for C7: the sync branch evaluated on a concrete state. -/
theorem C7_acc_monotone_witness :
    ({ stakes := [(1, { amount := 1000, reward_debt := 0 })],
        total_staked := 1000, acc_reward_per_share := 0,
        last_reward_time := 0 } : State).acc_reward_per_share ≤
      (update_pool 100
        { stakes := [(1, { amount := 1000, reward_debt := 0 })],
          total_staked := 1000, acc_reward_per_share := 0,
          last_reward_time := 0 }).acc_reward_per_share :=
  (C7_acc_monotone 100 _ (by decide)).1

/-- C8: in every reachable state, after the pool sync of any operation every
stored record satisfies `reward_debt ≤ amount * acc_reward_per_share`, and
consequently none of stake, claim_rewards or unstake can abort with the
big-integer subtraction underflow: that error branch is unreachable. -/
theorem C8_no_underflow {t : Nat} {st : State} (h : Reachable t st)
    (now c p : Nat) :
    (∀ a s, lookupStake st.stakes a = some s →
      s.reward_debt ≤ s.amount * (update_pool now st).acc_reward_per_share) ∧
    stake now c p st ≠ Except.error Err.subUnderflow ∧
    claim_rewards now c st ≠ Except.error Err.subUnderflow ∧
    unstake now c st ≠ Except.error Err.subUnderflow := by
  have hInv := reachable_inv h
  refine ⟨?_, stake_ne_underflow hInv, claim_ne_underflow hInv,
    unstake_ne_underflow hInv⟩
  intro a s hl
  exact le_trans (hInv.2 a s hl)
    (Nat.mul_le_mul_left _ (update_pool_acc_le now st))

/-- Witness for C8: no underflow for a concrete unstake on a concrete
reachable state. -/
theorem C8_no_underflow_witness :
    unstake 150 1
        { stakes := [(1, { amount := 1000, reward_debt := 30000 })],
          total_staked := 1000, acc_reward_per_share := 30,
          last_reward_time := 100 } ≠
      Except.error Err.subUnderflow :=
  (C8_no_underflow reachable_example 150 1 0).2.2.2

/-! ### Claims C6, C9 and C10 -/

/-- C6: whenever stake, claim_rewards or unstake aborts with InvalidAmount,
NoStake or NothingToClaim, the transaction (`runTx`, the host's atomicity
guarantee) leaves the entire observable state — `total_staked`,
`acc_reward_per_share`, `last_reward_time` and every stored record —
exactly as before the call, the pool-sync writes performed inside the
failed call included, and performs no transfers. -/
theorem C6_rollback (now c p : Nat) (st : State) (e : Err)
    (he : e = Err.invalidAmount ∨ e = Err.noStake ∨
      e = Err.nothingToClaim) :
    (stake now c p st = Except.error e →
      runTx st (stake now c p st) = (st, [])) ∧
    (claim_rewards now c st = Except.error e →
      runTx st (claim_rewards now c st) = (st, [])) ∧
    (unstake now c st = Except.error e →
      runTx st (unstake now c st) = (st, [])) := by
  refine ⟨?_, ?_, ?_⟩ <;> intro hf <;> rw [hf] <;> rfl

/-- Witness for C6: an unstake failing with NoStake at a timestamp at which
the inner pool sync would have advanced `last_reward_time` from 3 to 10; the
transaction still leaves the state exactly as before. -/
theorem C6_rollback_witness :
    unstake 10 1
        { stakes := [(1, { amount := 0, reward_debt := 0 })],
          total_staked := 0, acc_reward_per_share := 0,
          last_reward_time := 3 } = Except.error Err.noStake ∧
    runTx
        { stakes := [(1, { amount := 0, reward_debt := 0 })],
          total_staked := 0, acc_reward_per_share := 0,
          last_reward_time := 3 }
        (unstake 10 1
          { stakes := [(1, { amount := 0, reward_debt := 0 })],
            total_staked := 0, acc_reward_per_share := 0,
            last_reward_time := 3 }) =
      ({ stakes := [(1, { amount := 0, reward_debt := 0 })],
          total_staked := 0, acc_reward_per_share := 0,
          last_reward_time := 3 }, []) :=
  ⟨by decide,
   (C6_rollback 10 1 0 _ Err.noStake (Or.inr (Or.inl rfl))).2.2 (by decide)⟩

/-- C9: on an account with no stored record, the older `stake` variant
(`src/staking/staking.rs`), which reads the record with a plain `get()`,
aborts with the storage decode error on the very first deposit, while the
canonical variant (`src/staking/src/staking.rs`), which defaults a missing
record to zero, succeeds; the two variants are not behaviorally
equivalent. -/
theorem C9_variants_differ (now c p : Nat) (st : State) (hp : p ≠ 0)
    (hnone : lookupStake st.stakes c = none) :
    stakeVariant now c p st = Except.error Err.decodeError ∧
    stake now c p st =
      Except.ok
        ({ update_pool now st with
            stakes := setStake (update_pool now st).stakes c
              { amount := p,
                reward_debt := p * (update_pool now st).acc_reward_per_share },
            total_staked := (update_pool now st).total_staked + p }, []) ∧
    stakeVariant now c p st ≠ stake now c p st := by
  have hdef : getOrDefault st.stakes c = Stake.default := by
    unfold getOrDefault
    rw [hnone]
  have hvar : stakeVariant now c p st = Except.error Err.decodeError := by
    simp [stakeVariant, hp, getStakeStrict, update_pool_stakes, hnone]
  have hok := stake_eq_noSettle now c p st hp (by rw [hdef]; rfl)
  rw [hdef] at hok
  refine ⟨hvar, ?_, ?_⟩
  · rw [hok]
    simp [Stake.default]
  · rw [hvar, hok]
    simp

/-- Witness for C9: the very first deposit of account 2, evaluated
concretely for both variants. -/
theorem C9_variants_differ_witness :
    stakeVariant 5 2 3 (initState 0) = Except.error Err.decodeError ∧
    stake 5 2 3 (initState 0) =
      Except.ok
        ({ stakes := [(2, { amount := 3, reward_debt := 0 })],
            total_staked := 3, acc_reward_per_share := 0,
            last_reward_time := 5 }, []) ∧
    stakeVariant 5 2 3 (initState 0) ≠ stake 5 2 3 (initState 0) := by
  obtain ⟨h1, h2, h3⟩ := C9_variants_differ 5 2 3 (initState 0) (by decide) rfl
  exact ⟨h1, h2.trans (by decide), h3⟩

/-- C10: the read-only view `getStakingPosition` is a total function: for an
account with no stored record it returns the zeroed record, and after a
successful full withdrawal it returns the stored record `(0, 0)` — the same
observable result in both cases.  The view's generated body is modelled from
the spec (see `getStakingPosition`). -/
theorem C10_view_zero (now c : Nat) (st : State) :
    (lookupStake st.stakes c = none →
      getStakingPosition st c = { amount := 0, reward_debt := 0 }) ∧
    (∀ st2 tr, unstake now c st = Except.ok (st2, tr) →
      getStakingPosition st2 c = { amount := 0, reward_debt := 0 }) := by
  constructor
  · intro h
    unfold getStakingPosition getOrDefault
    rw [h]
    rfl
  · intro st2 tr h
    obtain ⟨s, hlk, hpos, hd, hle, hst2, htr⟩ := unstake_ok h
    subst hst2
    unfold getStakingPosition getOrDefault
    simp only [State.stakes]
    rw [lookupStake_setStake]
    simp

/-- Witness for C10: a never-seen account on the post-init state, and a
concrete full withdrawal, both observed as the zeroed record. -/
theorem C10_view_zero_witness :
    getStakingPosition (initState 0) 7 = { amount := 0, reward_debt := 0 } ∧
    getStakingPosition
        { stakes := [(1, { amount := 0, reward_debt := 0 })],
          total_staked := 0, acc_reward_per_share := 0,
          last_reward_time := 10 } 1 =
      { amount := 0, reward_debt := 0 } :=
  ⟨(C10_view_zero 0 7 (initState 0)).1 rfl,
   (C10_view_zero 10 1
      { stakes := [(1, { amount := 5, reward_debt := 0 })],
        total_staked := 5, acc_reward_per_share := 0,
        last_reward_time := 10 }).2
     { stakes := [(1, { amount := 0, reward_debt := 0 })],
       total_staked := 0, acc_reward_per_share := 0,
       last_reward_time := 10 }
     [(1, 5)] (by decide)⟩

/-! ### Error-case enumeration for the endpoints -/

theorem stake_error_cases {now c p : Nat} {st : State} {e : Err}
    (h : stake now c p st = Except.error e) :
    (e = Err.invalidAmount ∧ p = 0) ∨ e = Err.subUnderflow := by
  by_cases hp : p = 0
  · subst hp
    rw [stake_eq_zero] at h
    injection h with he
    exact Or.inl ⟨he.symm, rfl⟩
  · by_cases hs : (getOrDefault st.stakes c).amount = 0
    · rw [stake_eq_noSettle now c p st hp hs] at h
      exact absurd h (by simp)
    · by_cases hd : (getOrDefault st.stakes c).reward_debt ≤
          (getOrDefault st.stakes c).amount *
            (update_pool now st).acc_reward_per_share
      · rw [stake_eq_settle now c p st hp (Nat.pos_of_ne_zero hs) hd] at h
        exact absurd h (by simp)
      · rw [stake_eq_underflow now c p st hp (Nat.pos_of_ne_zero hs)
          (Nat.not_le.mp hd)] at h
        injection h with he
        exact Or.inr he.symm

theorem claim_error_cases {now c : Nat} {st : State} {e : Err}
    (h : claim_rewards now c st = Except.error e) :
    (e = Err.decodeError ∧ lookupStake st.stakes c = none) ∨
    (e = Err.noStake ∧
      ∃ s, lookupStake st.stakes c = some s ∧ s.amount = 0) ∨
    e = Err.subUnderflow ∨ e = Err.nothingToClaim := by
  cases hlk : lookupStake st.stakes c with
  | none =>
      rw [claim_eq_none now c st hlk] at h
      injection h with he
      exact Or.inl ⟨he.symm, rfl⟩
  | some s =>
      by_cases hs : s.amount = 0
      · rw [claim_eq_noStakeBranch now c st s hlk hs] at h
        injection h with he
        exact Or.inr (Or.inl ⟨he.symm, s, rfl, hs⟩)
      · have hpos := Nat.pos_of_ne_zero hs
        by_cases hd : s.reward_debt ≤
            s.amount * (update_pool now st).acc_reward_per_share
        · by_cases hz : s.amount *
              (update_pool now st).acc_reward_per_share - s.reward_debt = 0
          · rw [claim_eq_nothing now c st s hlk hpos hd hz] at h
            injection h with he
            exact Or.inr (Or.inr (Or.inr he.symm))
          · rw [claim_eq_ok now c st s hlk hpos hd hz] at h
            exact absurd h (by simp)
        · rw [claim_eq_underflow now c st s hlk hpos (Nat.not_le.mp hd)] at h
          injection h with he
          exact Or.inr (Or.inr (Or.inl he.symm))

theorem unstake_error_cases {now c : Nat} {st : State} {e : Err}
    (h : unstake now c st = Except.error e) :
    (e = Err.decodeError ∧ lookupStake st.stakes c = none) ∨
    (e = Err.noStake ∧
      ∃ s, lookupStake st.stakes c = some s ∧ s.amount = 0) ∨
    e = Err.subUnderflow := by
  cases hlk : lookupStake st.stakes c with
  | none =>
      rw [unstake_eq_none now c st hlk] at h
      injection h with he
      exact Or.inl ⟨he.symm, rfl⟩
  | some s =>
      by_cases hs : s.amount = 0
      · rw [unstake_eq_noStakeBranch now c st s hlk hs] at h
        injection h with he
        exact Or.inr (Or.inl ⟨he.symm, s, rfl, hs⟩)
      · have hpos := Nat.pos_of_ne_zero hs
        by_cases hd : s.reward_debt ≤
            s.amount * (update_pool now st).acc_reward_per_share
        · by_cases ht : s.amount ≤ (update_pool now st).total_staked
          · rw [unstake_eq_ok now c st s hlk hpos hd ht] at h
            exact absurd h (by simp)
          · rw [unstake_eq_totalUnderflow now c st s hlk hpos hd
              (Nat.not_le.mp ht)] at h
            injection h with he
            exact Or.inr (Or.inr he.symm)
        · rw [unstake_eq_underflow now c st s hlk hpos (Nat.not_le.mp hd)] at h
          injection h with he
          exact Or.inr (Or.inr he.symm)

/-! ### Claim C3 (corrected) -/

/-- C3 counterexample: a standalone claim by a caller with no record at all
aborts with the storage decode error raised by reading the empty entry, not
with `NoStake` as the claim states. -/
theorem C3_claim_counterexample :
    claim_rewards 0 1 (initState 0) = Except.error Err.decodeError ∧
    Except.error Err.decodeError ≠
      (Except.error Err.noStake : Except Err (State × List (Nat × Nat))) :=
  ⟨by decide, by decide⟩

/-- C3 (amended): after syncing the pool, `claim_rewards` aborts with a
storage decode error exactly when the caller has no record at all; it fails
with NoStake exactly when the caller's stored record has `amount = 0`;
otherwise, with `pending = amount * acc_reward_per_share − reward_debt`
(well-defined under the no-underflow hypothesis), a zero pending fails with
NothingToClaim, and a positive pending succeeds, sets the caller's
`reward_debt` to `amount * acc_reward_per_share` and transfers exactly
`pending` to the caller. -/
theorem C3_claim_spec (now c : Nat) (st : State) :
    (claim_rewards now c st = Except.error Err.decodeError ↔
      lookupStake st.stakes c = none) ∧
    (claim_rewards now c st = Except.error Err.noStake ↔
      ∃ s, lookupStake st.stakes c = some s ∧ s.amount = 0) ∧
    (∀ s, lookupStake st.stakes c = some s → 0 < s.amount →
      s.reward_debt ≤ s.amount * (update_pool now st).acc_reward_per_share →
      (s.amount * (update_pool now st).acc_reward_per_share
          - s.reward_debt = 0 →
        claim_rewards now c st = Except.error Err.nothingToClaim) ∧
      (s.amount * (update_pool now st).acc_reward_per_share
          - s.reward_debt ≠ 0 →
        claim_rewards now c st =
          Except.ok
            ({ update_pool now st with
                stakes := setStake (update_pool now st).stakes c
                  { amount := s.amount,
                    reward_debt :=
                      s.amount * (update_pool now st).acc_reward_per_share } },
              [(c, s.amount * (update_pool now st).acc_reward_per_share
                  - s.reward_debt)]))) := by
  refine ⟨⟨?_, claim_eq_none now c st⟩, ⟨?_, ?_⟩, ?_⟩
  · intro h
    rcases claim_error_cases h with ⟨_, hlk⟩ | ⟨he, _⟩ | he | he
    · exact hlk
    · exact absurd he (by decide)
    · exact absurd he (by decide)
    · exact absurd he (by decide)
  · intro h
    rcases claim_error_cases h with ⟨he, _⟩ | ⟨_, hs⟩ | he | he
    · exact absurd he (by decide)
    · exact hs
    · exact absurd he (by decide)
    · exact absurd he (by decide)
  · rintro ⟨s, hlk, hs⟩
    exact claim_eq_noStakeBranch now c st s hlk hs
  · intro s hlk hpos hd
    refine ⟨fun hz => claim_eq_nothing now c st s hlk hpos hd hz, fun hnz => ?_⟩
    rw [claim_eq_ok now c st s hlk hpos hd hnz]
    simp [send_rewards, Nat.pos_of_ne_zero hnz]

/-- Witness for C3 (amended): spec Scenario A evaluated concretely — account
1 stakes 1000 at `t = 0` and claims at `t = 100`, receiving exactly 30000. -/
theorem C3_claim_spec_witness :
    claim_rewards 100 1
        { stakes := [(1, { amount := 1000, reward_debt := 0 })],
          total_staked := 1000, acc_reward_per_share := 0,
          last_reward_time := 0 } =
      Except.ok
        ({ stakes := [(1, { amount := 1000, reward_debt := 30000 })],
            total_staked := 1000, acc_reward_per_share := 30,
            last_reward_time := 100 }, [(1, 30000)]) := by
  have h := ((C3_claim_spec 100 1
    { stakes := [(1, { amount := 1000, reward_debt := 0 })],
      total_staked := 1000, acc_reward_per_share := 0,
      last_reward_time := 0 }).2.2
    { amount := 1000, reward_debt := 0 } rfl (by decide) (by decide)).2
    (by decide)
  exact h.trans (by decide)

/-! ### Claim C4 -/

/-- C4: `stake` with attached payment `p` fails with InvalidAmount exactly
when `p = 0`.  When `p > 0` it first syncs the pool; if the caller's record
is absent or zeroed, settlement is skipped and no transfer occurs; otherwise
(under the no-underflow hypothesis, which holds in reachable states) the
pending reward against the pre-deposit amount is paid out.  Either way the
record's amount becomes its old value plus `p`, its `reward_debt` becomes
the new amount times `acc_reward_per_share`, and `total_staked` grows by
`p`. -/
theorem C4_stake_spec (now c p : Nat) (st : State) :
    (stake now c p st = Except.error Err.invalidAmount ↔ p = 0) ∧
    (p ≠ 0 → (getOrDefault st.stakes c).amount = 0 →
      stake now c p st =
        Except.ok
          ({ update_pool now st with
              stakes := setStake (update_pool now st).stakes c
                { amount := (getOrDefault st.stakes c).amount + p,
                  reward_debt := ((getOrDefault st.stakes c).amount + p) *
                    (update_pool now st).acc_reward_per_share },
              total_staked := (update_pool now st).total_staked + p },
            [])) ∧
    (p ≠ 0 → 0 < (getOrDefault st.stakes c).amount →
      (getOrDefault st.stakes c).reward_debt ≤
        (getOrDefault st.stakes c).amount *
          (update_pool now st).acc_reward_per_share →
      stake now c p st =
        Except.ok
          ({ update_pool now st with
              stakes := setStake (update_pool now st).stakes c
                { amount := (getOrDefault st.stakes c).amount + p,
                  reward_debt := ((getOrDefault st.stakes c).amount + p) *
                    (update_pool now st).acc_reward_per_share },
              total_staked := (update_pool now st).total_staked + p },
            send_rewards c ((getOrDefault st.stakes c).amount *
              (update_pool now st).acc_reward_per_share -
              (getOrDefault st.stakes c).reward_debt))) := by
  refine ⟨⟨?_, ?_⟩, ?_, ?_⟩
  · intro h
    rcases stake_error_cases h with ⟨_, hp⟩ | he
    · exact hp
    · exact absurd he (by decide)
  · intro hp
    subst hp
    exact stake_eq_zero now c st
  · exact fun hp hs => stake_eq_noSettle now c p st hp hs
  · exact fun hp hpos hd => stake_eq_settle now c p st hp hpos hd

/-- Witness for C4: a second deposit by account 1 at `t = 100` after staking
1000 at `t = 0`, paying out the accrued 30000 and updating the record. -/
theorem C4_stake_spec_witness :
    stake 100 1 500
        { stakes := [(1, { amount := 1000, reward_debt := 0 })],
          total_staked := 1000, acc_reward_per_share := 0,
          last_reward_time := 0 } =
      Except.ok
        ({ stakes := [(1, { amount := 1500, reward_debt := 45000 })],
            total_staked := 1500, acc_reward_per_share := 30,
            last_reward_time := 100 }, [(1, 30000)]) := by
  have h := (C4_stake_spec 100 1 500
    { stakes := [(1, { amount := 1000, reward_debt := 0 })],
      total_staked := 1000, acc_reward_per_share := 0,
      last_reward_time := 0 }).2.2 (by decide) (by decide) (by decide)
  exact h.trans (by decide)

/-! ### Claim C5 -/

/-- C5: `unstake` fails with NoStake exactly when the caller's stored record
has `amount = 0`; otherwise (under the no-underflow and solvency hypotheses,
which hold in reachable states) it syncs the pool, transfers the pending
reward when it is positive (zero pending is tolerated with no reward
transfer and no error), zeroes the caller's record, decreases
`total_staked` by the withdrawn amount, and transfers exactly the withdrawn
principal to the caller. -/
theorem C5_unstake_spec (now c : Nat) (st : State) :
    (unstake now c st = Except.error Err.noStake ↔
      ∃ s, lookupStake st.stakes c = some s ∧ s.amount = 0) ∧
    (∀ s, lookupStake st.stakes c = some s → 0 < s.amount →
      s.reward_debt ≤ s.amount * (update_pool now st).acc_reward_per_share →
      s.amount ≤ (update_pool now st).total_staked →
      unstake now c st =
        Except.ok
          ({ update_pool now st with
              stakes := setStake (update_pool now st).stakes c
                { amount := 0, reward_debt := 0 },
              total_staked := (update_pool now st).total_staked - s.amount },
            send_rewards c (s.amount *
              (update_pool now st).acc_reward_per_share - s.reward_debt)
              ++ [(c, s.amount)])) := by
  refine ⟨⟨?_, ?_⟩, ?_⟩
  · intro h
    rcases unstake_error_cases h with ⟨he, _⟩ | ⟨_, hs⟩ | he
    · exact absurd he (by decide)
    · exact hs
    · exact absurd he (by decide)
  · rintro ⟨s, hlk, hs⟩
    exact unstake_eq_noStakeBranch now c st s hlk hs
  · exact fun s hlk hpos hd ht => unstake_eq_ok now c st s hlk hpos hd ht

/-- Witness for C5: a full withdrawal with zero pending reward returns
exactly the principal and nothing else (spec Scenario C), evaluated
concretely. -/
theorem C5_unstake_spec_witness :
    unstake 10 1
        { stakes := [(1, { amount := 5, reward_debt := 0 })],
          total_staked := 5, acc_reward_per_share := 0,
          last_reward_time := 10 } =
      Except.ok
        ({ stakes := [(1, { amount := 0, reward_debt := 0 })],
            total_staked := 0, acc_reward_per_share := 0,
            last_reward_time := 10 }, [(1, 5)]) := by
  have h := (C5_unstake_spec 10 1
    { stakes := [(1, { amount := 5, reward_debt := 0 })],
      total_staked := 5, acc_reward_per_share := 0,
      last_reward_time := 10 }).2
    { amount := 5, reward_debt := 0 } rfl (by decide) (by decide) (by decide)
  exact h.trans (by decide)

end StakingModel
